import Mathlib

/-!
Verification of the line-following robot control core.

Shallow embedding of the Python modules `core/pid_controller.py`,
`core/line_detector.py` and `core/robot_controller.py`.  Python floats are
modelled as rationals (all operations involved are exact field operations,
`min`, `max` and absolute value); monotonic clock readings are passed in
explicitly as rational timestamps; contours extracted by OpenCV are
abstracted to their area and optional integer centroid x-coordinate, the
only data the selection logic inspects.
-/

/-! ## PID controller (`core/pid_controller.py`) -/

/-! ## Line detector (`core/line_detector.py`) -/

/-! ## Robot controller (`core/robot_controller.py`) -/

/-- Tunable parameters of `PIDController` (`__init__` / `update_params`). -/
structure PIDParams where
  kp : ℚ
  ki : ℚ
  kd : ℚ
  dead_zone : ℚ
  max_integral : ℚ

/-- Mutable state of `PIDController`: `_integral`, `_last_error`,
`_last_time` (None before the first call). -/
structure PIDState where
  integral : ℚ
  last_error : ℚ
  last_time : Option ℚ

namespace PID

/-- The state installed by `__init__` (lines 30-32). -/
def init : PIDState :=
  { integral := 0, last_error := 0, last_time := none }

/-- `PIDController.reset` (lines 47-52): zeroes integral and last error,
forgets the timestamp. -/
def reset (_s : PIDState) : PIDState :=
  { integral := 0, last_error := 0, last_time := none }

/-- The `dt` computation at the top of `compute` (lines 64-70):
first call uses the literal `0.033`, later calls use the elapsed
monotonic time floored at `0.001`. -/
def computeDt (s : PIDState) (now : ℚ) : ℚ :=
  match s.last_time with
  | none => 33 / 1000
  | some t => max (now - t) (1 / 1000)

/-- `PIDController.compute` (lines 56-96), with the monotonic clock reading
passed in as `now`.  Returns the steering output and the updated state. -/
def compute (p : PIDParams) (s : PIDState) (now : ℚ) (error : ℚ) :
    ℚ × PIDState :=
  let dt := computeDt s now
  let e := if |error| < p.dead_zone then 0 else error
  let pTerm := p.kp * e
  let integral := max (-p.max_integral) (min p.max_integral (s.integral + e * dt))
  let iTerm := p.ki * integral
  let derivative := (e - s.last_error) / dt
  let dTerm := p.kd * derivative
  let output := max (-100 : ℚ) (min 100 (pTerm + iTerm + dTerm))
  (output, { integral := integral, last_error := e, last_time := some now })

/-- Run `compute` over a sequence of `(now, error)` samples, keeping only
the evolving state. -/
def run (p : PIDParams) (s : PIDState) (inputs : List (ℚ × ℚ)) : PIDState :=
  inputs.foldl (fun st ne => (compute p st ne.1 ne.2).2) s

end PID

/-- A connected foreground region as the selection logic sees it:
`cv2.contourArea` gives `area`; when the zeroth moment is positive the
centroid x-coordinate `int(M10/M00)` is `some`, else `none`. -/
structure Contour where
  area : ℚ
  centroid_x : Option ℤ

/-- Python's `max(contours, key=cv2.contourArea)`: the first contour of
maximal area (ties keep the earlier element, as Python's `max` does). -/
def maxArea : List Contour → Option Contour
  | [] => none
  | c :: cs => some (cs.foldl (fun b x => if x.area > b.area then x else b) c)

/-- The score the `_best_contour` loop (lines 263-276) assigns to a
candidate: `none` when the candidate is skipped (area below 100 or zero
moment), otherwise `area / (|cx - last_cx| + 1) ^ power`. -/
def scoreOf (power : ℤ) (lastCx : ℤ) (c : Contour) : Option ℚ :=
  if c.area < 100 then none
  else
    match c.centroid_x with
    | none => none
    | some cx => some (c.area / ((|cx - lastCx| + 1 : ℤ) : ℚ) ^ power)

/-- One iteration of the `_best_contour` loop: keep the running
`(best, best_score)` pair, replacing it when the candidate's score is
strictly larger. -/
def bcStep (power : ℤ) (lastCx : ℤ) (acc : Option Contour × ℚ) (c : Contour) :
    Option Contour × ℚ :=
  match scoreOf power lastCx c with
  | none => acc
  | some q => if acc.2 < q then (some c, q) else acc

/-- `LineDetector._best_contour` (lines 249-278): with empty history take
the largest-area contour; otherwise run the continuity-scored loop from
`(None, -1)` and fall back to largest-area when no candidate scored. -/
def bestContour (power : ℤ) (prev : List ℤ) (cs : List Contour) : Option Contour :=
  match prev.getLast? with
  | none => maxArea cs
  | some lastCx =>
    let r := cs.foldl (bcStep power lastCx) (none, -1)
    match r.1 with
    | some b => some b
    | none => maxArea cs

/-- Configuration fields of `LineDetector` that the observation logic
reads (`__init__`, lines 50-67). -/
structure DetectorConfig where
  width : ℕ
  rotation : ℕ
  continuity_power : ℤ
  max_memory : ℕ
  ra_threshold : ℤ
  ra_enabled : Bool

/-- `self._cx = self._width // 2` (line 87): the frame-center column. -/
def frameCx (cfg : DetectorConfig) : ℤ :=
  ((cfg.width / 2 : ℕ) : ℤ)

/-- The detector state the observation logic reads and writes:
`_prev_centers` plus the published `_error` / `_line_lost` /
`_right_angle` triple. -/
structure DetectorState where
  prev_centers : List ℤ
  error : ℚ
  line_lost : Bool
  right_angle : Bool

/-- The published observation when no line blob qualifies (lines 179-181,
208-209, 242-245): error `0.0`, lost, no right angle, history cleared. -/
def lostState : DetectorState :=
  { prev_centers := [], error := 0, line_lost := true, right_angle := false }

/-- The last three entries of the center history (`prev_centers[-3:]`). -/
def lastThree (l : List ℤ) : List ℤ :=
  l.drop (l.length - 3)

/-- The found branch of `_process` (lines 191-206): compute the signed
error (negated for a 180-degree mount), append the centroid to the
bounded history, and evaluate the right-angle test on the last three
entries. -/
def processFound (cfg : DetectorConfig) (s : DetectorState) (cxl : ℤ) :
    DetectorState :=
  let raw : ℚ := ((cxl - frameCx cfg : ℤ) : ℚ)
  let error := if cfg.rotation = 180 then -raw else raw
  let appended := s.prev_centers ++ [cxl]
  let prev2 := if cfg.max_memory < appended.length then appended.drop 1 else appended
  let ra := cfg.ra_enabled && decide (3 ≤ prev2.length) &&
    (lastThree prev2).all (fun c => decide (cfg.ra_threshold < |c - frameCx cfg|))
  { prev_centers := prev2, error := error, line_lost := false, right_angle := ra }

/-- `LineDetector._process` after contour extraction (lines 179-247),
taking the extracted contours as input: filter by area (`> 50`), select
the best contour, and publish the observation triple while updating the
history.  The source guards `_best_contour` behind `if contours` and
`if valid`; since `bestContour` of an empty candidate list is `none`,
the empty cases land in the same lost branch here. -/
def processBest (cfg : DetectorConfig) (s : DetectorState) (best : Contour) :
    DetectorState :=
  match best.centroid_x with
  | none => lostState
  | some cxl => processFound cfg s cxl

/-- The full per-frame observation update: area filter, selection,
centroid check, publish. -/
def processObs (cfg : DetectorConfig) (s : DetectorState)
    (contours : List Contour) : DetectorState :=
  let valid := contours.filter (fun c => decide (50 < c.area))
  match bestContour cfg.continuity_power s.prev_centers valid with
  | none => lostState
  | some best => processBest cfg s best

/-- Concrete right-angle scenario: 160-px-wide frame (center column 80),
threshold 40, three consecutive blobs far left of center. -/
def w4cfg : DetectorConfig := ⟨160, 0, 2, 10, 40, true⟩

def w4s1 : DetectorState :=
  processObs w4cfg ⟨[], 0, true, false⟩ [⟨1000, some 10⟩]

def w4s2 : DetectorState :=
  processObs w4cfg w4s1 [⟨1000, some 12⟩]

/-- Inverted-mount configuration for the error-sign witness. -/
def w7cfg : DetectorConfig := ⟨160, 180, 2, 10, 40, true⟩

/-- Motion commands issued to the `Engines` collaborator. -/
inductive MotorCmd where
  | stop : MotorCmd
  | setSpeed (left right : ℚ) : MotorCmd
  | curve (speed steering : ℚ) : MotorCmd
  | rightAngleRight : MotorCmd
  | rightAngleLeft : MotorCmd

/-- Configuration the control loop reads: search timeout and turn speed
(exposed by `Engines`), adaptive-speed bounds, the right-angle enable
flag, and the PID parameters. -/
structure SupConfig where
  search_time : ℚ
  search_turn_speed : ℚ
  max_speed : ℚ
  min_speed : ℚ
  ra_enabled : Bool
  pid_params : PIDParams

/-- Supervisor state: the published `RobotState` fields written by the
loop plus `_search_start`, `_search_dir` and the PID state. -/
structure SupState where
  mode : String
  error : ℚ
  steering : ℚ
  speed : ℚ
  search_start : Option ℚ
  search_dir : ℤ
  pid : PIDState

/-- What one loop iteration reads from `LineDetector`, together with the
monotonic clock reading shared by the PID and the search timer. -/
structure SensorInput where
  right_angle : Bool
  line_lost : Bool
  error : ℚ
  now : ℚ

/-- `RobotController._adaptive_speed` (lines 229-239). -/
def adaptiveSpeed (cfg : SupConfig) (absSteering : ℚ) : ℚ :=
  let factor := min (absSteering / 100) 1
  let speed := cfg.max_speed - factor * (cfg.max_speed - cfg.min_speed)
  max cfg.min_speed (min cfg.max_speed speed)

/-- `RobotController._handle_follow` (lines 161-182): clear the search
timer, reset the PID when entering from another mode, compute steering
and adaptive speed, issue a curve command, remember the side of the last
nonzero error, publish mode `following`. -/
def handleFollow (cfg : SupConfig) (s : SupState) (inp : SensorInput) :
    SupState × List MotorCmd :=
  let pid0 := if s.mode = "following" then s.pid else PID.reset s.pid
  let r := PID.compute cfg.pid_params pid0 inp.now inp.error
  let speed := adaptiveSpeed cfg |r.1|
  let dir := if inp.error ≠ 0 then (if 0 < inp.error then 1 else -1)
             else s.search_dir
  ({ mode := "following", error := inp.error, steering := r.1, speed := speed,
     search_start := none, search_dir := dir, pid := r.2 },
   [MotorCmd.curve speed r.1])

/-- `RobotController._handle_search` (lines 184-212): on first entry
record the start time and reset the PID; past the timeout stop the motors
and publish mode `stopped` with zero speed; otherwise rotate in place
toward the last-known side and publish mode `searching`. -/
def handleSearch (cfg : SupConfig) (s : SupState) (inp : SensorInput) :
    SupState × List MotorCmd :=
  let start := match s.search_start with
    | none => inp.now
    | some t => t
  let pid1 := match s.search_start with
    | none => PID.reset s.pid
    | some _ => s.pid
  let elapsed := inp.now - start
  if cfg.search_time < elapsed then
    ({ s with
        mode := "stopped", speed := 0, steering := 0,
        search_start := some start, pid := pid1 }, [MotorCmd.stop])
  else
    let sp := cfg.search_turn_speed
    let cmd := if 0 < s.search_dir then MotorCmd.setSpeed sp (-sp)
               else MotorCmd.setSpeed (-sp) sp
    ({ s with
        mode := "searching", error := inp.error,
        steering := (s.search_dir : ℚ) * sp, speed := 0,
        search_start := some start, pid := pid1 }, [cmd])

/-- `RobotController._handle_right_angle` (lines 214-227): stop, publish
mode `right_angle`, perform the blocking turn toward the last-known side,
reset the PID. -/
def handleRightAngle (s : SupState) : SupState × List MotorCmd :=
  let cmd := if 0 < s.search_dir then MotorCmd.rightAngleRight
             else MotorCmd.rightAngleLeft
  ({ s with
      mode := "right_angle", steering := 0, speed := 0,
      pid := PID.reset s.pid }, [MotorCmd.stop, cmd])

/-- One non-failing iteration of `RobotController._loop` (lines 150-155):
dispatch on the right-angle flag and the lost flag. -/
def loopIter (cfg : SupConfig) (s : SupState) (inp : SensorInput) :
    SupState × List MotorCmd :=
  if inp.right_angle && cfg.ra_enabled then handleRightAngle s
  else if inp.line_lost then handleSearch cfg s inp
  else handleFollow cfg s inp

/-- Outcome of one guarded iteration of `_loop`: successor state, issued
commands, whether the recovery sleep was taken, whether the loop
continues. -/
structure IterOutcome where
  state : SupState
  cmds : List MotorCmd
  slept : Bool
  continues : Bool

/-- The `try/except` body of `RobotController._loop` (lines 148-159): the
per-iteration branch logic may raise (modelled as `Except`); an exception
is caught locally, the engines are commanded to stop, a short sleep is
taken, and the loop continues either way. -/
def loopBody (s : SupState) (inp : SensorInput)
    (iter : SupState → SensorInput → Except String (SupState × List MotorCmd)) :
    IterOutcome :=
  match iter s inp with
  | Except.ok r => { state := r.1, cmds := r.2, slept := false, continues := true }
  | Except.error _ =>
    { state := s, cmds := [MotorCmd.stop], slept := true, continues := true }

/-- Search scenario for the C5 witness: 2-second timeout, line lost at
t = 0, iteration at t = 2.1 s, line back at t = 2.5 s. -/
def w5cfg : SupConfig := ⟨2, 30, 80, 20, true, ⟨1, 0, 0, 0, 100⟩⟩

def w5s : SupState := ⟨"searching", 0, 0, 0, some 0, 1, PID.init⟩

def w5inp1 : SensorInput := ⟨false, true, 0, 21 / 10⟩

def w5inp2 : SensorInput := ⟨false, false, 5, 5 / 2⟩

def w9msg : String := "sensor read failure"

/-! ## Theorems -/

theorem pid_run_append (p : PIDParams) (s : PIDState) (l₁ l₂ : List (ℚ × ℚ)) :
    PID.run p s (l₁ ++ l₂) = PID.run p (PID.run p s l₁) l₂ :=
  List.foldl_append _ _ _ _

/-- After any single `compute` call the integral accumulator is clamped:
its absolute value is at most `max_integral` (assuming the configured
bound is non-negative). -/
theorem pid_integral_clamped (p : PIDParams) (h : 0 ≤ p.max_integral)
    (s : PIDState) (now error : ℚ) :
    |(PID.compute p s now error).2.integral| ≤ p.max_integral := by
  simp only [PID.compute]
  rw [abs_le]
  constructor
  · exact le_max_left _ _
  · exact max_le (by linarith) (min_le_left _ _)

/-- Claim C1: for any sequence of error values (with arbitrary clock
readings, hence arbitrary `dt > 0`) fed to `compute`, after every call the
integral accumulator's absolute value is at most `max_integral`:
the state reached after any prefix of calls ending in a call has
`|integral| ≤ max_integral`, provided the configured bound is
non-negative. -/
theorem C1_integral_always_clamped (p : PIDParams) (h : 0 ≤ p.max_integral)
    (inputs : List (ℚ × ℚ)) (x : ℚ × ℚ) :
    |(PID.run p PID.init (inputs ++ [x])).integral| ≤ p.max_integral := by
  rw [pid_run_append]
  exact pid_integral_clamped p h _ x.1 x.2

theorem C1_witness :
    (0 : ℚ) ≤ 100 ∧
      |(PID.run { kp := 1, ki := 2, kd := 0, dead_zone := 0, max_integral := 100 }
          PID.init ([(1, 500), (2, 700)] ++ [(3, -900)])).integral| ≤ 100 :=
  ⟨by norm_num,
   C1_integral_always_clamped
     { kp := 1, ki := 2, kd := 0, dead_zone := 0, max_integral := 100 }
     (by norm_num) [(1, 500), (2, 700)] (3, -900)⟩

/-- Claim C2: the steering value returned by `compute` lies in
`[-100, 100]`, for every error, every prior state (hence every sequence of
prior calls) and every clock reading. -/
theorem C2_output_clamped (p : PIDParams) (s : PIDState) (now error : ℚ) :
    -100 ≤ (PID.compute p s now error).1 ∧ (PID.compute p s now error).1 ≤ 100 := by
  simp only [PID.compute]
  constructor
  · exact le_max_left _ _
  · exact max_le (by norm_num) (min_le_left _ _)

/-- Claim C6: `reset()` followed by `compute e` behaves exactly like a
freshly constructed controller (same parameters) receiving `e` as its
first sample: both start from the no-timestamp state, so both use the
first-call `dt` and produce identical output and successor state. -/
theorem C6_reset_eq_fresh (p : PIDParams) (s : PIDState) (now error : ℚ) :
    PID.compute p (PID.reset s) now error = PID.compute p PID.init now error :=
  rfl

/-- Claim C8 (counterexample): the first-call `dt` is the literal `0.033`,
which is not `1/30`; here evaluated on the freshly initialised state. -/
theorem C8_counterexample :
    PID.computeDt PID.init 0 ≠ 1 / 30 := by
  simp only [PID.computeDt, PID.init]
  norm_num

/-- Claim C8 (amended): on the first call (and after `reset`) `dt` is the
constant `0.033` (approximately, but not exactly, 1/30 s); on every later
call `dt` is the elapsed monotonic time since the previous call, floored
at `0.001`. -/
theorem C8_first_call_dt (now : ℚ) :
    PID.computeDt PID.init now = 33 / 1000 ∧
      (∀ s : PIDState, PID.computeDt (PID.reset s) now = 33 / 1000) ∧
      ∀ (i e t : ℚ),
        PID.computeDt { integral := i, last_error := e, last_time := some t } now =
          max (now - t) (1 / 1000) :=
  ⟨rfl, fun _ => rfl, fun _ _ _ => rfl⟩

theorem maxArea_fold_spec (cs : List Contour) (b : Contour) :
    let m := cs.foldl (fun b x => if x.area > b.area then x else b) b
    (m = b ∨ m ∈ cs) ∧ b.area ≤ m.area ∧ ∀ x ∈ cs, x.area ≤ m.area := by
  induction cs generalizing b with
  | nil => exact ⟨Or.inl rfl, le_refl _, by simp⟩
  | cons c cs ih =>
    simp only [List.foldl_cons]
    by_cases hc : c.area > b.area
    · simp only [if_pos hc]
      obtain ⟨hm, hle, hall⟩ := ih c
      refine ⟨?_, ?_, ?_⟩
      · rcases hm with h | h
        · exact Or.inr (by rw [h]; exact List.mem_cons_self _ _)
        · exact Or.inr (List.mem_cons_of_mem _ h)
      · exact le_trans (le_of_lt hc) hle
      · intro x hx
        rcases List.mem_cons.mp hx with h | h
        · exact h ▸ hle
        · exact hall x h
    · simp only [if_neg hc]
      obtain ⟨hm, hle, hall⟩ := ih b
      refine ⟨?_, hle, ?_⟩
      · rcases hm with h | h
        · exact Or.inl h
        · exact Or.inr (List.mem_cons_of_mem _ h)
      · intro x hx
        rcases List.mem_cons.mp hx with h | h
        · exact h ▸ le_trans (le_of_not_lt hc) hle
        · exact hall x h

theorem maxArea_spec (cs : List Contour) (hne : cs ≠ []) :
    ∃ m, maxArea cs = some m ∧ m ∈ cs ∧ ∀ x ∈ cs, x.area ≤ m.area := by
  match cs with
  | [] => exact absurd rfl hne
  | c :: cs =>
    obtain ⟨hm, hle, hall⟩ := maxArea_fold_spec cs c
    refine ⟨_, rfl, ?_, ?_⟩
    · rcases hm with h | h
      · rw [h]; exact List.mem_cons_self _ _
      · exact List.mem_cons_of_mem _ h
    · intro x hx
      rcases List.mem_cons.mp hx with h | h
      · exact h ▸ hle
      · exact hall x h

theorem scoreOf_pos (power lastCx : ℤ) (c : Contour) (q : ℚ)
    (h : scoreOf power lastCx c = some q) : 0 < q := by
  simp only [scoreOf] at h
  split at h
  · exact absurd h (by simp)
  · rename_i harea
    split at h
    · exact absurd h (by simp)
    · rename_i cx hcx
      have hq : q = c.area / ((|cx - lastCx| + 1 : ℤ) : ℚ) ^ power :=
        (Option.some.injEq _ _ ▸ h).symm
      have h100 : (100 : ℚ) ≤ c.area := le_of_not_lt harea
      have hbase : (0 : ℚ) < ((|cx - lastCx| + 1 : ℤ) : ℚ) := by
        have : (0 : ℤ) < |cx - lastCx| + 1 := by positivity
        exact_mod_cast this
      have hpow : (0 : ℚ) < ((|cx - lastCx| + 1 : ℤ) : ℚ) ^ power :=
        zpow_pos hbase power
      rw [hq]
      exact div_pos (by linarith) hpow

theorem bc_fold_spec (power lastCx : ℤ) (cs : List Contour)
    (acc : Option Contour × ℚ) :
    let r := cs.foldl (bcStep power lastCx) acc
    acc.2 ≤ r.2 ∧
      (∀ c ∈ cs, ∀ q, scoreOf power lastCx c = some q → q ≤ r.2) ∧
      (r = acc ∨ ∃ c ∈ cs, scoreOf power lastCx c = some r.2 ∧ r.1 = some c) := by
  induction cs generalizing acc with
  | nil => exact ⟨le_refl _, by simp, Or.inl rfl⟩
  | cons c cs ih =>
    simp only [List.foldl_cons]
    obtain ⟨ih1, ih2, ih3⟩ := ih (bcStep power lastCx acc c)
    have hstep : acc.2 ≤ (bcStep power lastCx acc c).2 ∧
        (∀ q, scoreOf power lastCx c = some q → q ≤ (bcStep power lastCx acc c).2) ∧
        (bcStep power lastCx acc c = acc ∨
          scoreOf power lastCx c = some (bcStep power lastCx acc c).2 ∧
            (bcStep power lastCx acc c).1 = some c) := by
      cases hs : scoreOf power lastCx c with
      | none =>
        have hb : bcStep power lastCx acc c = acc := by simp only [bcStep, hs]
        rw [hb]
        refine ⟨le_refl _, ?_, Or.inl rfl⟩
        intro q hq
        simp at hq
      | some q =>
        by_cases hlt : acc.2 < q
        · have hb : bcStep power lastCx acc c = (some c, q) := by
            simp only [bcStep, hs, if_pos hlt]
          rw [hb]
          refine ⟨le_of_lt hlt, ?_, Or.inr ⟨rfl, rfl⟩⟩
          intro q' hq'
          injection hq' with hqq
          exact le_of_eq hqq.symm
        · have hb : bcStep power lastCx acc c = acc := by
            simp only [bcStep, hs, if_neg hlt]
          rw [hb]
          refine ⟨le_refl _, ?_, Or.inl rfl⟩
          intro q' hq'
          injection hq' with hqq
          rw [← hqq]
          exact le_of_not_lt hlt
    refine ⟨le_trans hstep.1 ih1, ?_, ?_⟩
    · intro c' hc' q hq
      rcases List.mem_cons.mp hc' with h | h
      · exact le_trans (hstep.2.1 q (by rw [← h]; exact hq)) ih1
      · exact ih2 c' h q hq
    · rcases ih3 with h | ⟨c', hc', hs', hb'⟩
      · rcases hstep.2.2 with h2 | ⟨hs2, hb2⟩
        · exact Or.inl (h.trans h2)
        · exact Or.inr ⟨c, List.mem_cons_self _ _, by rw [h]; exact hs2,
            by rw [h]; exact hb2⟩
      · exact Or.inr ⟨c', List.mem_cons_of_mem _ hc', hs', hb'⟩

theorem scoreOf_eq_some_of (power lastCx : ℤ) (c : Contour) (cx : ℤ)
    (hcx : c.centroid_x = some cx) (ha : 100 ≤ c.area) :
    scoreOf power lastCx c =
      some (c.area / ((|cx - lastCx| + 1 : ℤ) : ℚ) ^ power) := by
  simp only [scoreOf, hcx, if_neg (not_lt.mpr ha)]

theorem scoreOf_eq_none_of (power lastCx : ℤ) (c : Contour)
    (h : c.area < 100 ∨ c.centroid_x = none) :
    scoreOf power lastCx c = none := by
  rcases h with h | h
  · simp only [scoreOf, if_pos h]
  · simp only [scoreOf, h]
    split <;> rfl

theorem scoreOf_inv (power lastCx : ℤ) (c : Contour) (q : ℚ)
    (h : scoreOf power lastCx c = some q) :
    ∃ cx, c.centroid_x = some cx ∧ 100 ≤ c.area ∧
      q = c.area / ((|cx - lastCx| + 1 : ℤ) : ℚ) ^ power := by
  simp only [scoreOf] at h
  split at h
  · exact absurd h (by simp)
  · rename_i harea
    split at h
    · exact absurd h (by simp)
    · rename_i cx hcx
      injection h with hq
      exact ⟨cx, hcx, le_of_not_lt harea, hq.symm⟩

/-- Claim C3: with a non-empty center history, `_best_contour` scores
exactly the candidates of area at least 100 with a defined centroid by
`area / (|cx - last_cx| + 1) ^ continuity_power` and returns one of
maximal score; with empty history, or when no candidate qualifies, it
returns a largest-area candidate. -/
theorem C3_best_contour_selection (power : ℤ) (prev : List ℤ)
    (cs : List Contour) (hne : cs ≠ []) :
    (prev = [] →
      ∃ m, bestContour power prev cs = some m ∧ m ∈ cs ∧
        ∀ x ∈ cs, x.area ≤ m.area) ∧
    ∀ lastCx, prev.getLast? = some lastCx →
      ((∃ c ∈ cs, ∃ cx, c.centroid_x = some cx ∧ 100 ≤ c.area) →
        ∃ b ∈ cs, ∃ bx, bestContour power prev cs = some b ∧
          b.centroid_x = some bx ∧ 100 ≤ b.area ∧
          ∀ c ∈ cs, ∀ cx, c.centroid_x = some cx → 100 ≤ c.area →
            c.area / ((|cx - lastCx| + 1 : ℤ) : ℚ) ^ power ≤
              b.area / ((|bx - lastCx| + 1 : ℤ) : ℚ) ^ power) ∧
      ((∀ c ∈ cs, c.area < 100 ∨ c.centroid_x = none) →
        ∃ m, bestContour power prev cs = some m ∧ m ∈ cs ∧
          ∀ x ∈ cs, x.area ≤ m.area) := by
  constructor
  · intro hp
    have hlast : prev.getLast? = none := by rw [hp]; rfl
    have hbc : bestContour power prev cs = maxArea cs := by
      simp only [bestContour, hlast]
    rw [hbc]
    exact maxArea_spec cs hne
  · intro lastCx hlast
    obtain ⟨h1, h2, h3⟩ := bc_fold_spec power lastCx cs (none, -1)
    constructor
    · rintro ⟨c₀, hc₀, cx₀, hcx₀, ha₀⟩
      have hq₀ := scoreOf_eq_some_of power lastCx c₀ cx₀ hcx₀ ha₀
      have hq₀pos : 0 < c₀.area / ((|cx₀ - lastCx| + 1 : ℤ) : ℚ) ^ power :=
        scoreOf_pos power lastCx c₀ _ hq₀
      have hle₀ := h2 c₀ hc₀ _ hq₀
      rcases h3 with h | ⟨b, hb, hsb, hb1⟩
      · exfalso
        have : (List.foldl (bcStep power lastCx) (none, -1) cs).2 = -1 := by
          rw [h]
        rw [this] at hle₀
        linarith
      · obtain ⟨bx, hbx, hba, hbq⟩ := scoreOf_inv power lastCx b _ hsb
        refine ⟨b, hb, bx, ?_, hbx, hba, ?_⟩
        · have hbc : bestContour power prev cs =
              match (List.foldl (bcStep power lastCx) (none, -1) cs).1 with
              | some b => some b
              | none => maxArea cs := by
            simp only [bestContour, hlast]
          rw [hbc, hb1]
        · intro c hc cx hcx ha
          have hq := scoreOf_eq_some_of power lastCx c cx hcx ha
          have := h2 c hc _ hq
          rw [← hbq]
          exact this
    · intro hnone
      have hr : (List.foldl (bcStep power lastCx) (none, -1) cs) = (none, -1) := by
        rcases h3 with h | ⟨c, hc, hsc, _⟩
        · exact h
        · exact absurd hsc (by
            rw [scoreOf_eq_none_of power lastCx c (hnone c hc)]
            simp)
      have hbc : bestContour power prev cs = maxArea cs := by
        simp only [bestContour, hlast, hr]
      rw [hbc]
      exact maxArea_spec cs hne

theorem C3_witness :
    ((([20] : List ℤ) = [] →
      ∃ m, bestContour 2 [20] [⟨4000, some 100⟩, ⟨1200, some 23⟩] = some m ∧
        m ∈ [⟨4000, some 100⟩, ⟨1200, some 23⟩] ∧
        ∀ x ∈ ([⟨4000, some 100⟩, ⟨1200, some 23⟩] : List Contour),
          x.area ≤ m.area) ∧
    ∀ lastCx, ([20] : List ℤ).getLast? = some lastCx →
      ((∃ c ∈ ([⟨4000, some 100⟩, ⟨1200, some 23⟩] : List Contour),
          ∃ cx, c.centroid_x = some cx ∧ 100 ≤ c.area) →
        ∃ b ∈ ([⟨4000, some 100⟩, ⟨1200, some 23⟩] : List Contour), ∃ bx,
          bestContour 2 [20] [⟨4000, some 100⟩, ⟨1200, some 23⟩] = some b ∧
          b.centroid_x = some bx ∧ 100 ≤ b.area ∧
          ∀ c ∈ ([⟨4000, some 100⟩, ⟨1200, some 23⟩] : List Contour),
            ∀ cx, c.centroid_x = some cx → 100 ≤ c.area →
              c.area / ((|cx - lastCx| + 1 : ℤ) : ℚ) ^ (2 : ℤ) ≤
                b.area / ((|bx - lastCx| + 1 : ℤ) : ℚ) ^ (2 : ℤ)) ∧
      ((∀ c ∈ ([⟨4000, some 100⟩, ⟨1200, some 23⟩] : List Contour),
          c.area < 100 ∨ c.centroid_x = none) →
        ∃ m, bestContour 2 [20] [⟨4000, some 100⟩, ⟨1200, some 23⟩] = some m ∧
          m ∈ [⟨4000, some 100⟩, ⟨1200, some 23⟩] ∧
          ∀ x ∈ ([⟨4000, some 100⟩, ⟨1200, some 23⟩] : List Contour),
            x.area ≤ m.area)) :=
  C3_best_contour_selection 2 [20] [⟨4000, some 100⟩, ⟨1200, some 23⟩]
    (List.cons_ne_nil _ _)

theorem processObs_cases (cfg : DetectorConfig) (s : DetectorState)
    (contours : List Contour) :
    processObs cfg s contours = lostState ∨
      ∃ best cxl,
        bestContour cfg.continuity_power s.prev_centers
            (contours.filter (fun c => decide (50 < c.area))) = some best ∧
        best.centroid_x = some cxl ∧
        processObs cfg s contours = processFound cfg s cxl := by
  simp only [processObs]
  cases hb : bestContour cfg.continuity_power s.prev_centers
      (contours.filter (fun c => decide (50 < c.area))) with
  | none => exact Or.inl rfl
  | some best =>
    simp only [processBest]
    cases hcx : best.centroid_x with
    | none => exact Or.inl rfl
    | some cxl => exact Or.inr ⟨best, cxl, rfl, hcx, rfl⟩

/-- Claim C10: whenever the published observation has `lost = true`, the
published error is `0.0` and the published right-angle flag is false. -/
theorem C10_lost_zero_error (cfg : DetectorConfig) (s : DetectorState)
    (contours : List Contour)
    (h : (processObs cfg s contours).line_lost = true) :
    (processObs cfg s contours).error = 0 ∧
      (processObs cfg s contours).right_angle = false := by
  rcases processObs_cases cfg s contours with h0 | ⟨best, cxl, _, _, h0⟩
  · rw [h0]
    exact ⟨rfl, rfl⟩
  · rw [h0] at h
    simp [processFound] at h

theorem C10_witness :
    (processObs w4cfg ⟨[], 0, true, false⟩ []).line_lost = true ∧
      ((processObs w4cfg ⟨[], 0, true, false⟩ []).error = 0 ∧
        (processObs w4cfg ⟨[], 0, true, false⟩ []).right_angle = false) :=
  ⟨rfl, C10_lost_zero_error w4cfg ⟨[], 0, true, false⟩ [] rfl⟩

/-- Claim C7: whenever a line blob is selected with a defined centroid
(the observation is published not-lost), the published error equals
`centroid_x - frame_center_x`, negated exactly when the configured mount
rotation is 180 degrees. -/
theorem C7_error_formula (cfg : DetectorConfig) (s : DetectorState)
    (contours : List Contour)
    (h : (processObs cfg s contours).line_lost = false) :
    ∃ best cxl,
      bestContour cfg.continuity_power s.prev_centers
          (contours.filter (fun c => decide (50 < c.area))) = some best ∧
      best.centroid_x = some cxl ∧
      (processObs cfg s contours).error =
        (if cfg.rotation = 180 then -((cxl - frameCx cfg : ℤ) : ℚ)
         else ((cxl - frameCx cfg : ℤ) : ℚ)) := by
  rcases processObs_cases cfg s contours with h0 | ⟨best, cxl, hb, hcx, h0⟩
  · rw [h0] at h
    simp [lostState] at h
  · exact ⟨best, cxl, hb, hcx, by rw [h0]; rfl⟩

/-- Claim C4: with right-angle detection enabled, the published
right-angle flag is true exactly when the updated center history holds at
least three samples whose last three all deviate from the frame center by
more than the configured threshold. -/
theorem C4_right_angle_iff (cfg : DetectorConfig) (s : DetectorState)
    (contours : List Contour) (hen : cfg.ra_enabled = true) :
    ((processObs cfg s contours).right_angle = true ↔
      3 ≤ (processObs cfg s contours).prev_centers.length ∧
        ∀ c ∈ lastThree (processObs cfg s contours).prev_centers,
          cfg.ra_threshold < |c - frameCx cfg|) := by
  rcases processObs_cases cfg s contours with h0 | ⟨best, cxl, _, _, h0⟩
  · rw [h0]
    simp [lostState, lastThree]
  · rw [h0]
    simp only [processFound, hen, Bool.true_and, Bool.and_eq_true,
      decide_eq_true_eq, List.all_eq_true]

theorem C4_witness :
    w4cfg.ra_enabled = true ∧
      ((processObs w4cfg w4s2 [⟨1000, some 14⟩]).right_angle = true ↔
        3 ≤ (processObs w4cfg w4s2 [⟨1000, some 14⟩]).prev_centers.length ∧
          ∀ c ∈ lastThree (processObs w4cfg w4s2 [⟨1000, some 14⟩]).prev_centers,
            w4cfg.ra_threshold < |c - frameCx w4cfg|) :=
  ⟨rfl, C4_right_angle_iff w4cfg w4s2 [⟨1000, some 14⟩] rfl⟩

theorem C7_witness :
    (processObs w7cfg ⟨[], 0, true, false⟩ [⟨1000, some 100⟩]).line_lost = false ∧
      ∃ best cxl,
        bestContour w7cfg.continuity_power ([] : List ℤ)
            (List.filter (fun c => decide (50 < c.area)) [⟨1000, some 100⟩]) = some best ∧
        best.centroid_x = some cxl ∧
        (processObs w7cfg ⟨[], 0, true, false⟩ [⟨1000, some 100⟩]).error =
          (if w7cfg.rotation = 180 then -((cxl - frameCx w7cfg : ℤ) : ℚ)
           else ((cxl - frameCx w7cfg : ℤ) : ℚ)) :=
  ⟨rfl, C7_error_formula w7cfg ⟨[], 0, true, false⟩ [⟨1000, some 100⟩] rfl⟩

/-- Claim C5: once the line has stayed lost past `search_time`, the loop
iteration stops the motors and publishes mode `stopped` with speed 0;
the state is not terminal: on the next iteration with the line found
(and no right angle), the following branch runs, clearing the search
timer and publishing mode `following`. -/
theorem C5_stopped_not_terminal (cfg : SupConfig) (s : SupState) (t0 : ℚ)
    (inp1 inp2 : SensorInput)
    (h1 : s.search_start = some t0)
    (h2 : inp1.line_lost = true)
    (h3 : (inp1.right_angle && cfg.ra_enabled) = false)
    (h4 : cfg.search_time < inp1.now - t0)
    (h5 : inp2.line_lost = false)
    (h6 : (inp2.right_angle && cfg.ra_enabled) = false) :
    (loopIter cfg s inp1).1.mode = "stopped" ∧
      (loopIter cfg s inp1).1.speed = 0 ∧
      (loopIter cfg s inp1).2 = [MotorCmd.stop] ∧
      (loopIter cfg (loopIter cfg s inp1).1 inp2).1.mode = "following" ∧
      (loopIter cfg (loopIter cfg s inp1).1 inp2).1.search_start = none := by
  have hA : loopIter cfg s inp1 = handleSearch cfg s inp1 := by
    unfold loopIter
    rw [h3, h2]
    simp
  have hB : ∀ s' : SupState, loopIter cfg s' inp2 = handleFollow cfg s' inp2 := by
    intro s'
    unfold loopIter
    rw [h6, h5]
    simp
  refine ⟨?_, ?_, ?_, ?_, ?_⟩
  · rw [hA]; unfold handleSearch; rw [h1]; simp [h4]
  · rw [hA]; unfold handleSearch; rw [h1]; simp [h4]
  · rw [hA]; unfold handleSearch; rw [h1]; simp [h4]
  · rw [hB]; rfl
  · rw [hB]; rfl

theorem C5_witness :
    (loopIter w5cfg w5s w5inp1).1.mode = "stopped" ∧
      (loopIter w5cfg w5s w5inp1).1.speed = 0 ∧
      (loopIter w5cfg w5s w5inp1).2 = [MotorCmd.stop] ∧
      (loopIter w5cfg (loopIter w5cfg w5s w5inp1).1 w5inp2).1.mode = "following" ∧
      (loopIter w5cfg (loopIter w5cfg w5s w5inp1).1 w5inp2).1.search_start = none :=
  C5_stopped_not_terminal w5cfg w5s 0 w5inp1 w5inp2 rfl rfl rfl
    (by norm_num [w5cfg, w5inp1]) rfl rfl

/-- Claim C9: when the per-iteration branch logic raises, the loop body
catches it, commands the engines to stop, takes the recovery sleep, and
continues with the next iteration (the exception never propagates). -/
theorem C9_exception_recovery (s : SupState) (inp : SensorInput)
    (iter : SupState → SensorInput → Except String (SupState × List MotorCmd))
    (msg : String) (h : iter s inp = Except.error msg) :
    loopBody s inp iter =
      { state := s, cmds := [MotorCmd.stop], slept := true, continues := true } := by
  unfold loopBody
  rw [h]

theorem C9_witness :
    loopBody w5s w5inp1 (fun _ _ => Except.error w9msg) =
      { state := w5s, cmds := [MotorCmd.stop], slept := true, continues := true } :=
  C9_exception_recovery w5s w5inp1 (fun _ _ => Except.error w9msg) w9msg rfl

